import Mathlib

/-!
# Shallow embedding of `cfgparser` (extended ConfigParser subclass)

This file embeds the core of `src/cfgparser.py` — the `CfgParser` class with
its category index, evaluated values, list values and defaults handling — as
executable Lean definitions, and proves the frozen claims about it.

Python strings are Lean `String`s; Python `OrderedDict`s are association
lists (`List (String × α)`) with insert-keeps-position / append-if-new
semantics; Python exceptions become an `Except` error kind.  The stdlib
`ast.literal_eval` collaborator is an abstract parameter
`lit : String → Option PyVal` (returns `none` where the Python function
raises); theorems about `_evaluate` quantify over it.
-/

namespace Cfg

/-- ASCII whitespace as recognised by Python's `str.strip()` (we restrict the
Unicode rule to the ASCII range that the config data uses). -/
def isPySpace (c : Char) : Bool :=
  c = ' ' || c = '\t' || c = '\n' || c = '\r' || c = '\x0b' || c = '\x0c'

/-- `str.strip()` on a character list: drop whitespace at both ends. -/
def trimChars (l : List Char) : List Char :=
  ((l.dropWhile isPySpace).reverse.dropWhile isPySpace).reverse

/-- Python `str.strip()`. -/
def pyStrip (s : String) : String :=
  ⟨trimChars s.data⟩

/-- `ConfigParser.optionxform`, the default case-normalisation: `str.lower`
(per character; ASCII case fold on the data the parser sees). -/
def optionxform (s : String) : String :=
  ⟨s.data.map Char.toLower⟩

/-- Number of `':'` characters in a name (`section.count(':')`). -/
def countColon (l : List Char) : Nat :=
  l.count ':'

/-- `section.split(':')` restricted to the exactly-one-colon case: the parts
before and after the unique colon. -/
def splitOnce (l : List Char) : List Char × List Char :=
  (l.takeWhile (fun c => c ≠ ':'), (l.dropWhile (fun c => c ≠ ':')).tail)

/-- One step of `_parse_categories` name analysis: normalise
(`optionxform(...)`, then `.strip()`); if the result has exactly one colon,
split there and strip both parts, giving `(category, bare name)`; otherwise
the section is not categorised. -/
def normPair (fullname : String) : Option (String × String) :=
  let s := trimChars (optionxform fullname).data
  if countColon s = 1 then
    some (⟨trimChars (splitOnce s).1⟩, ⟨trimChars (splitOnce s).2⟩)
  else
    none

/-! ## Ordered dictionaries (Python `OrderedDict`) -/

/-- Lookup in an ordered dict (association list, first match). -/
def odLookup {α : Type} : List (String × α) → String → Option α
  | [], _ => none
  | (k, v) :: rest, key => if k = key then some v else odLookup rest key

/-- `d[k] = v`: replace in place if the key is present (keeping its
position), otherwise append at the end — Python dict assignment. -/
def odInsert {α : Type} : List (String × α) → String → α → List (String × α)
  | [], k, v => [(k, v)]
  | (k', v') :: rest, k, v =>
      if k' = k then (k', v) :: rest else (k', v') :: odInsert rest k v

/-- `d.setdefault(k, dflt)` followed by an update `f` of the entry: adjust in
place if present, else append `(k, f dflt)`. -/
def odAdjust {α : Type} : List (String × α) → String → (α → α) → α → List (String × α)
  | [], k, f, dflt => [(k, f dflt)]
  | (k', v') :: rest, k, f, dflt =>
      if k' = k then (k', f v') :: rest else (k', v') :: odAdjust rest k f dflt

/-- `d.keys()` in insertion order. -/
def odKeys {α : Type} (d : List (String × α)) : List String :=
  d.map Prod.fst

/-! ## The category index (`CfgParser._parse_categories`) -/

/-- The `_categories` structure: category name → (bare name → full name),
both levels ordered. -/
def CatIndex : Type := List (String × List (String × String))

/-- One iteration of the `_parse_categories` loop body for a full section
name: if it normalises to `(cat, name)`, do
`self._categories.setdefault(cat, OrderedDict())[name] = fullname`. -/
def buildStep (d : CatIndex) (fullname : String) : CatIndex :=
  match normPair fullname with
  | none => d
  | some (cat, name) => odAdjust d cat (fun secs => odInsert secs name fullname) []

/-- `_parse_categories` applied to the ordered list of section names. -/
def buildCats (names : List String) : CatIndex :=
  names.foldl buildStep []

/-- The two-level index lookup `self._categories[cat][name]` as a partial
function (`none` = Python `KeyError`). -/
def lookup2 (d : CatIndex) (cat name : String) : Option String :=
  match odLookup d cat with
  | none => none
  | some secs => odLookup secs name

/-- The inner dict registered under `cat`, or empty if the category is
absent. -/
def innerOf (d : CatIndex) (cat : String) : List (String × String) :=
  (odLookup d cat).getD []

/-- Projection of a full section name onto a fixed category: `some (name,
fullname)` exactly when the name normalises into that category. -/
def projFn (cat : String) (fullname : String) : Option (String × String) :=
  match normPair fullname with
  | none => none
  | some (c, n) => if c = cat then some (n, fullname) else none

/-- Keys of a stream of inserts in order of first appearance (Python dict
key order under repeated assignment). -/
def firstKeys (l : List String) : List String :=
  l.foldl (fun acc k => if k ∈ acc then acc else acc ++ [k]) []

/-! ## Values, errors, defaults -/

/-- Python values that flow through the evaluator: the `EvaluatedValue`
tagged union (ints, bools, strings, `None`, lists). -/
inductive PyVal : Type where
  | int (n : Int)
  | bool (b : Bool)
  | str (s : String)
  | none
  | list (l : List PyVal)

/-- Exception kinds raised by the embedded operations: a raw dict
`KeyError`, `configparser.NoSectionError`, `configparser.NoOptionError`,
and the `TypeError` produced when a `raise` names an exception class whose
constructor requires arguments that are not supplied. -/
inductive PyErr : Type where
  | keyError
  | noSection
  | noOption
  | typeError
deriving DecidableEq, Repr

/-- The `default=_EMPTY` sentinel pattern: either no default was supplied
(the `_EMPTY` sentinel) or any value — including `None` — was. -/
inductive Dflt : Type where
  | empty
  | given (v : PyVal)

/-! ## Parser state -/

/-- A `CfgParser` instance: the underlying ConfigParser store (ordered
sections, each an ordered option → raw-string map with option keys already
normalised by `optionxform` at read time), plus the lazily built
`_categories` cache (`None` until `_parse_categories` runs). -/
structure CfgState : Type where
  store : List (String × List (String × String))
  catIndex : Option CatIndex

/-- Base `ConfigParser.sections()`: section names in file order. -/
def baseSections (st : CfgState) : List String :=
  st.store.map Prod.fst

/-- Base `ConfigParser.has_section`. -/
def baseHasSection (st : CfgState) (sec : String) : Bool :=
  (odLookup st.store sec).isSome

/-- Base `ConfigParser.options`: raises `NoSectionError` on a missing
section, else the option names. -/
def baseOptions (st : CfgState) (sec : String) : Except PyErr (List String) :=
  match odLookup st.store sec with
  | Option.none => .error .noSection
  | some opts => .ok (odKeys opts)

/-- Base `ConfigParser.items`: raises `NoSectionError` on a missing section,
else the ordered (option, raw value) pairs. -/
def baseItems (st : CfgState) (sec : String) : Except PyErr (List (String × String)) :=
  match odLookup st.store sec with
  | Option.none => .error .noSection
  | some opts => .ok opts

/-- Base `ConfigParser.has_option`: raises `NoSectionError` on a missing
section, else membership of `optionxform(option)`. -/
def baseHasOption (st : CfgState) (sec opt : String) : Except PyErr Bool :=
  match odLookup st.store sec with
  | Option.none => .error .noSection
  | some opts => .ok (odLookup opts (optionxform opt)).isSome

/-- Base `ConfigParser.get`: `NoSectionError` on a missing section,
`NoOptionError` on a missing option, else the raw string value. -/
def baseGet (st : CfgState) (sec opt : String) : Except PyErr String :=
  match odLookup st.store sec with
  | Option.none => .error .noSection
  | some opts =>
      match odLookup opts (optionxform opt) with
      | Option.none => .error .noOption
      | some v => .ok v

/-! ## CfgParser category machinery -/

/-- `CfgParser._parse_categories`: build the index from `self.sections()`
on the first call; on later calls (`self._categories is not None`) do
nothing. -/
def parseCategories (st : CfgState) : CfgState :=
  match st.catIndex with
  | some _ => st
  | Option.none => { st with catIndex := some (buildCats (baseSections st)) }

/-- The `_categories` value every category-aware method reads after its
`self._parse_categories()` call. -/
def idxOf (st : CfgState) : CatIndex :=
  match st.catIndex with
  | some i => i
  | Option.none => buildCats (baseSections st)

/-- `CfgParser.categories()`: result together with the post-call state. -/
def categoriesOp (st : CfgState) : List String × CfgState :=
  (odKeys (idxOf st), parseCategories st)

/-- `CfgParser.sections(category=None)`: all raw names, or the bare names of
the category — an uncaught `KeyError` if the category is absent. -/
def sectionsOp (st : CfgState) : Option String → Except PyErr (List String)
  | Option.none => .ok (baseSections st)
  | some cat =>
      match odLookup (idxOf st) (optionxform cat) with
      | Option.none => .error .keyError
      | some secs => .ok (odKeys secs)

/-- `CfgParser.has_section(section, category=None)`: with a category, tests
`optionxform(category)` in the index and then the *raw* `section` argument
(no `optionxform`) in the inner dict; never raises. -/
def hasSectionOp (st : CfgState) (sec : String) : Option String → Bool
  | Option.none => baseHasSection st sec
  | some cat =>
      match odLookup (idxOf st) (optionxform cat) with
      | Option.none => false
      | some secs => (odLookup secs sec).isSome

/-- `CfgParser.options(section, category=None)`: with a category, resolves
`self._categories[optionxform(category)][optionxform(section)]` — both dict
accesses raise an uncaught `KeyError` on a miss. -/
def optionsOp (st : CfgState) (sec : String) : Option String → Except PyErr (List String)
  | Option.none => baseOptions st sec
  | some cat =>
      match lookup2 (idxOf st) (optionxform cat) (optionxform sec) with
      | Option.none => .error .keyError
      | some full => baseOptions st full

/-- `CfgParser.has_option(section, option, category=None)`: same uncaught
double-index resolution as `options`. -/
def hasOptionOp (st : CfgState) (sec opt : String) : Option String → Except PyErr Bool
  | Option.none => baseHasOption st sec opt
  | some cat =>
      match lookup2 (idxOf st) (optionxform cat) (optionxform sec) with
      | Option.none => .error .keyError
      | some full => baseHasOption st full opt

/-- `CfgParser.items(section, category=None)`: same uncaught double-index
resolution as `options`. -/
def itemsOp (st : CfgState) (sec : String) : Option String → Except PyErr (List (String × String))
  | Option.none => baseItems st sec
  | some cat =>
      match lookup2 (idxOf st) (optionxform cat) (optionxform sec) with
      | Option.none => .error .keyError
      | some full => baseItems st full

/-- The name resolution done by `CfgParser.section(section, category)` for a
non-`None` category: `self._categories[optionxform(category)][section]` —
note the *raw* `section` key and the uncaught `KeyError`s. -/
def sectionResolve (st : CfgState) (sec : String) (cat : String) : Except PyErr String :=
  match odLookup (idxOf st) (optionxform cat) with
  | Option.none => .error .keyError
  | some secs =>
      match odLookup secs sec with
      | Option.none => .error .keyError
      | some full => .ok full

/-! ## Evaluated values (`CfgParser._evaluate`) and `get` -/

/-- `CfgParser._evaluate(val)`: try `ast.literal_eval(val)` (the abstract
parameter `lit`, `none` where Python raises); on failure fall back to the
case-insensitive boolean keywords, else return the string unchanged.  Total:
the fallback path cannot fail. -/
def evaluateVal (lit : String → Option PyVal) (val : String) : PyVal :=
  match lit val with
  | some v => v
  | Option.none =>
      if optionxform val = "no" ∨ optionxform val = "false" ∨ optionxform val = "off" then
        PyVal.bool false
      else if optionxform val = "yes" ∨ optionxform val = "true" ∨ optionxform val = "on" then
        PyVal.bool true
      else
        PyVal.str val

/-- `CfgParser.get(section, option, category, evaluate, default)` (the
`raw`/`vars` interpolation arguments are passed through to the base class
and not modelled).  With a category: resolve
`self._categories[optionxform(category)][optionxform(section)]`, and on
`KeyError` return the default if supplied; with no default the code
executes `raise configparser.NoSectionError` — raising the bare exception
*class*, whose constructor requires the section argument, so what actually
propagates is an untyped `TypeError` (not catchable as `NoSectionError`),
modelled as `.error .typeError`.  Then base `get`; on `NoOptionError`
return the default if supplied, else re-raise (a bare `raise` of the caught
instance, which is a genuine `NoOptionError`).  If `evaluate`, pipe the raw
string through `_evaluate`. -/
def getOp (lit : String → Option PyVal) (st : CfgState) (sec opt : String)
    (category : Option String) (evaluate : Bool) (default : Dflt) : Except PyErr PyVal :=
  let after : String → Except PyErr PyVal := fun s =>
    match baseGet st s opt with
    | .ok val => .ok (if evaluate then evaluateVal lit val else PyVal.str val)
    | .error .noOption =>
        match default with
        | .given v => .ok v
        | .empty => .error .noOption
    | .error e => .error e
  match category with
  | Option.none => after sec
  | some cat =>
      match lookup2 (idxOf st) (optionxform cat) (optionxform sec) with
      | some full => after full
      | Option.none =>
          match default with
          | .given v => .ok v
          | .empty => .error .typeError

/-! ## List values (`CfgParser.SPLITTER` and `getlist`) -/

/-- Whether a character matches the `SPLITTER` regex class `[,\n]`. -/
def isDelim (c : Char) : Bool :=
  c = ',' || c = '\n'

/-- `re.split` on the single-character class `[,\n]`: every delimiter cuts,
empty segments are kept. -/
def splitDelims : List Char → List (List Char)
  | [] => [[]]
  | c :: rest =>
      if isDelim c then
        [] :: splitDelims rest
      else
        match splitDelims rest with
        | [] => [[c]]
        | seg :: segs => (c :: seg) :: segs

/-- `[s.strip() for s in self.SPLITTER.split(val) if s.strip()]`: split,
strip each segment, drop the ones that are empty after stripping. -/
def splitList (val : String) : List String :=
  (((splitDelims val.data).map (fun l => (⟨trimChars l⟩ : String))).filter
    (fun s => s ≠ ""))

/-- `CfgParser.getlist(section, option, evaluate, category, default)`: calls
`self.get(section, option, category=category)` — with *no* default and no
evaluation — catches only `NoOptionError` (returning the default if
supplied), then splits; if `evaluate`, maps `_evaluate` over the items. -/
def getlistOp (lit : String → Option PyVal) (st : CfgState) (sec opt : String)
    (category : Option String) (evaluate : Bool) (default : Dflt) : Except PyErr PyVal :=
  match getOp lit st sec opt category false Dflt.empty with
  | .error .noOption =>
      match default with
      | .given v => .ok v
      | .empty => .error .noOption
  | .error e => .error e
  | .ok (PyVal.str val) =>
      .ok (PyVal.list (if evaluate then (splitList val).map (evaluateVal lit)
                       else (splitList val).map PyVal.str))
  | .ok v => .ok v

/-- `CfgParser.geteval(section, option, category, default)`: sugar for
`get(..., evaluate=True, ...)`. -/
def getevalOp (lit : String → Option PyVal) (st : CfgState) (sec opt : String)
    (category : Option String) (default : Dflt) : Except PyErr PyVal :=
  getOp lit st sec opt category true default

/-- Modelled from the spec: the external literal-syntax evaluator
(`ast.literal_eval`), missing from `src/` (it is Python stdlib).  A small
literal grammar — `True`/`False`/`None` and optionally-signed decimal
integers — sufficient to instantiate the theorems, which quantify over the
evaluator. -/
def litEvalModel (s : String) : Option PyVal :=
  let t := trimChars s.data
  if t = "True".data then some (PyVal.bool true)
  else if t = "False".data then some (PyVal.bool false)
  else if t = "None".data then some PyVal.none
  else
    let digits := match t with
      | '-' :: rest => rest
      | l => l
    if digits ≠ [] ∧ digits.all Char.isDigit then
      let n : Int := digits.foldl (fun a c => a * 10 + (c.toNat - 48)) 0
      some (PyVal.int (if t.head? = some '-' then -n else n))
    else
      Option.none

/-- The value paired with the last occurrence of `key` in a pair stream
(`none` if the key never occurs): the net effect of replaying the stream as
dict assignments. -/
def lastVal : List (String × String) → String → Option String
  | [], _ => Option.none
  | p :: rest, key =>
      match lastVal rest key with
      | some v => some v
      | Option.none => if p.1 = key then some p.2 else Option.none

/-! ## Concrete example instances -/

/-- A store shaped like the repository's example config: two plain sections,
three sections in the `command` category (with assorted spacing and
capitalisation) and one in `results`. -/
def exampleStore : List (String × List (String × String)) :=
  [("evalvals", [("val1", "42")]),
   ("listvals", [("val2", "hello, there, comma, list")]),
   ("command: foo", [("dir", "bar")]),
   (" Command:    bar ", [("dir", "baz")]),
   ("CoMmaNd:baz", [("dir", "quux")]),
   ("results: hello", [("type", "add")])]

/-- A freshly constructed parser over `exampleStore` (category cache not yet
built). -/
def exampleState : CfgState :=
  { store := exampleStore, catIndex := Option.none }

/-- Section names with duplicate normalisation: the first and second both
normalise to `("command", "foo")`. -/
def dupNames : List String :=
  ["command: foo", "Command:  foo  ", "command: zar"]

/-- A parser whose single section name carries surrounding whitespace in the
config file. -/
def trimmedBarState : CfgState :=
  { store := [(" Command:  bar ", [("dir", "baz")])], catIndex := Option.none }

/-! ## Ordered-dict lemmas -/

theorem odLookup_odInsert {α : Type} (d : List (String × α)) (k : String) (v : α)
    (key : String) :
    odLookup (odInsert d k v) key = if k = key then some v else odLookup d key := by
  induction d with
  | nil => simp [odInsert, odLookup]
  | cons p rest ih =>
    obtain ⟨k', v'⟩ := p
    by_cases hk : k' = k
    · subst hk
      by_cases hkey : k' = key <;> simp [odInsert, odLookup, hkey]
    · by_cases hkey : k' = key
      · subst hkey
        have hne : ¬k = k' := fun h => hk h.symm
        simp [odInsert, odLookup, hk, hne]
      · simp [odInsert, odLookup, hk, hkey, ih]

theorem odLookup_odAdjust {α : Type} (d : List (String × α)) (k : String)
    (f : α → α) (dflt : α) (key : String) :
    odLookup (odAdjust d k f dflt) key =
      if k = key then some (f ((odLookup d k).getD dflt)) else odLookup d key := by
  induction d with
  | nil =>
    by_cases hkey : k = key <;> simp [odAdjust, odLookup, hkey]
  | cons p rest ih =>
    obtain ⟨k', v'⟩ := p
    by_cases hk : k' = k
    · subst hk
      by_cases hkey : k' = key <;> simp [odAdjust, odLookup, hkey]
    · by_cases hkey : k' = key
      · subst hkey
        have hne : ¬k = k' := fun h => hk h.symm
        simp [odAdjust, odLookup, hk, hne]
      · simp [odAdjust, odLookup, hk, hkey, ih]

theorem odKeys_odInsert {α : Type} (d : List (String × α)) (k : String) (v : α) :
    odKeys (odInsert d k v) =
      if k ∈ odKeys d then odKeys d else odKeys d ++ [k] := by
  induction d with
  | nil => simp [odInsert, odKeys]
  | cons p rest ih =>
    obtain ⟨k', v'⟩ := p
    by_cases hk : k' = k
    · subst hk
      simp [odInsert, odKeys]
    · have hne : ¬k = k' := fun h => hk h.symm
      simp only [odInsert, if_neg hk, odKeys, List.map_cons, List.mem_cons, hne, false_or]
      simp only [odKeys] at ih
      rw [ih]
      by_cases hmem : k ∈ List.map Prod.fst rest <;> simp [hmem]

/-- Replaying a pair stream as dict assignments: lookup sees the last
assignment to the key, falling back to the initial dict. -/
theorem odLookup_foldl_odInsert (ps : List (String × String))
    (d0 : List (String × String)) (key : String) :
    odLookup (ps.foldl (fun d p => odInsert d p.1 p.2) d0) key =
      match lastVal ps key with
      | some v => some v
      | Option.none => odLookup d0 key := by
  induction ps generalizing d0 with
  | nil => simp [lastVal]
  | cons p rest ih =>
    simp only [List.foldl_cons, ih, lastVal]
    cases lastVal rest key with
    | some v => simp
    | none =>
      simp only [odLookup_odInsert]
      by_cases hp : p.1 = key <;> simp [hp]

/-- `lastVal` is the value of the last pair carrying the key: the first
match when scanning the stream in reverse. -/
theorem lastVal_eq_find? (ps : List (String × String)) (key : String) :
    lastVal ps key = (ps.reverse.find? (fun p => p.1 = key)).map Prod.snd := by
  induction ps with
  | nil => simp [lastVal]
  | cons p rest ih =>
    simp only [lastVal, ih, List.reverse_cons, List.find?_append]
    rcases hfind : rest.reverse.find? (fun p => decide (p.1 = key)) with _ | q
    · by_cases hp : p.1 = key <;> simp [hfind, List.find?, hp]
    · simp [hfind]

/-- Keys after replaying a pair stream as dict assignments: existing keys in
place, new keys appended at first appearance. -/
theorem odKeys_foldl_odInsert (ps : List (String × String))
    (d0 : List (String × String)) :
    odKeys (ps.foldl (fun d p => odInsert d p.1 p.2) d0) =
      ps.foldl (fun acc p => if p.1 ∈ acc then acc else acc ++ [p.1]) (odKeys d0) := by
  induction ps generalizing d0 with
  | nil => simp
  | cons p rest ih =>
    simp only [List.foldl_cons, ih, odKeys_odInsert]

theorem lookup2_innerOf (d : CatIndex) (cat name : String) :
    lookup2 d cat name = odLookup (innerOf d cat) name := by
  unfold lookup2 innerOf
  cases odLookup d cat with
  | none => simp [odLookup]
  | some secs => simp

/-! ## Category-index build lemmas -/

/-- One `_parse_categories` iteration, seen through a fixed category: a
no-op unless the section name projects into that category, in which case it
is a dict assignment on the inner dict. -/
theorem innerOf_buildStep (d : CatIndex) (fullname cat : String) :
    innerOf (buildStep d fullname) cat =
      match projFn cat fullname with
      | Option.none => innerOf d cat
      | some (n, f) => odInsert (innerOf d cat) n f := by
  unfold buildStep projFn
  cases hn : normPair fullname with
  | none => simp
  | some p =>
    obtain ⟨c, n⟩ := p
    by_cases hc : c = cat
    · subst hc
      simp [innerOf, odLookup_odAdjust]
    · have hne : ¬c = cat := hc
      simp [innerOf, odLookup_odAdjust, hne]

/-- The whole `_parse_categories` fold, seen through a fixed category:
replaying the projected `(bare name, full name)` stream as dict
assignments. -/
theorem innerOf_foldl_buildStep (names : List String) (d : CatIndex) (cat : String) :
    innerOf (names.foldl buildStep d) cat =
      (names.filterMap (projFn cat)).foldl
        (fun inner p => odInsert inner p.1 p.2) (innerOf d cat) := by
  induction names generalizing d with
  | nil => simp
  | cons fn rest ih =>
    simp only [List.foldl_cons, List.filterMap_cons, ih, innerOf_buildStep]
    cases projFn cat fn with
    | none => rfl
    | some p => rfl

/-- Lookup in the built index equals the last projected full name. -/
theorem lookup2_buildCats (names : List String) (cat name : String) :
    lookup2 (buildCats names) cat name =
      (((names.filterMap (projFn cat)).reverse.find?
          (fun p => p.1 = name)).map Prod.snd) := by
  rw [lookup2_innerOf, buildCats, innerOf_foldl_buildStep, odLookup_foldl_odInsert,
    ← lastVal_eq_find?]
  cases lastVal (names.filterMap (projFn cat)) name with
  | none => simp [innerOf, odLookup]
  | some v => simp

/-- Bare names of a category in the built index: order of first appearance
of the projected names. -/
theorem odKeys_innerOf_buildCats (names : List String) (cat : String) :
    odKeys (innerOf (buildCats names) cat) =
      firstKeys ((names.filterMap (projFn cat)).map Prod.fst) := by
  rw [buildCats, innerOf_foldl_buildStep, odKeys_foldl_odInsert, firstKeys,
    List.foldl_map]
  simp [innerOf, odLookup, odKeys]

/-! ## Splitter lemmas -/

theorem splitDelims_ne_nil (l : List Char) : splitDelims l ≠ [] := by
  induction l with
  | nil => simp [splitDelims]
  | cons c rest ih =>
    unfold splitDelims
    by_cases hc : isDelim c
    · simp [hc]
    · simp only [hc, if_false]
      cases splitDelims rest with
      | nil => simp
      | cons seg segs => simp

/-- Every segment produced by the splitter is delimiter-free. -/
theorem not_delim_of_mem_splitDelims (l : List Char) :
    ∀ seg ∈ splitDelims l, ∀ c ∈ seg, isDelim c = false := by
  induction l with
  | nil =>
    intro seg hseg c hc
    simp [splitDelims] at hseg
    subst hseg
    simp at hc
  | cons x rest ih =>
    intro seg hseg c hc
    by_cases hx : isDelim x = true
    · have hstep : splitDelims (x :: rest) = [] :: splitDelims rest := by
        rw [splitDelims.eq_def]; simp [hx]
      rw [hstep] at hseg
      rcases List.mem_cons.mp hseg with h1 | h1
      · subst h1; simp at hc
      · exact ih seg h1 c hc
    · rcases hrest : splitDelims rest with _ | ⟨seg0, segs⟩
      · exact absurd hrest (splitDelims_ne_nil rest)
      · have hstep : splitDelims (x :: rest) = (x :: seg0) :: segs := by
          rw [splitDelims.eq_def]; simp [hx, hrest]
        rw [hstep] at hseg
        rcases List.mem_cons.mp hseg with h1 | h1
        · subst h1
          rcases List.mem_cons.mp hc with h2 | h2
          · subst h2; simpa using hx
          · exact ih seg0 (by rw [hrest]; exact List.mem_cons_self _ _) c h2
        · exact ih seg (by rw [hrest]; exact List.mem_cons_of_mem _ h1) c hc

/-- A delimiter-free string is a single segment. -/
theorem splitDelims_of_no_delim (l : List Char) (h : ∀ c ∈ l, isDelim c = false) :
    splitDelims l = [l] := by
  induction l with
  | nil => simp [splitDelims]
  | cons x rest ih =>
    have hx : isDelim x = false := h x (List.mem_cons_self _ _)
    have hrest := ih fun c hc => h c (List.mem_cons_of_mem _ hc)
    unfold splitDelims
    simp [hx, hrest]

/-- Each delimiter cuts exactly once: splitting at the first delimiter. -/
theorem splitDelims_append (a b : List Char) (c : Char) (hc : isDelim c = true)
    (ha : ∀ x ∈ a, isDelim x = false) :
    splitDelims (a ++ c :: b) = a :: splitDelims b := by
  induction a with
  | nil => simp [splitDelims, hc]
  | cons x a' ih =>
    have hx : isDelim x = false := ha x (List.mem_cons_self _ _)
    have ha' := ih fun y hy => ha y (List.mem_cons_of_mem _ hy)
    simp only [List.cons_append]
    rw [splitDelims.eq_def]
    simp [hx, ha']

/-! ## Lazy-build state lemmas -/

theorem parseCategories_catIndex (st : CfgState) :
    (parseCategories st).catIndex = some (idxOf st) := by
  cases st with
  | mk store ci => cases ci <;> simp [parseCategories, idxOf]

theorem parseCategories_of_built (st : CfgState) (i : CatIndex)
    (h : st.catIndex = some i) : parseCategories st = st := by
  cases st with
  | mk store ci => cases ci <;> simp_all [parseCategories]

/-- Anything the built index resolves is a known section name whose
normalisation matches the lookup pair. -/
theorem mem_of_lookup2_buildCats (names : List String) (cat name fn : String)
    (h : lookup2 (buildCats names) cat name = some fn) :
    fn ∈ names ∧ normPair fn = some (cat, name) := by
  rw [lookup2_buildCats] at h
  rcases hfind : (names.filterMap (projFn cat)).reverse.find? (fun p => decide (p.1 = name))
    with _ | p
  · rw [hfind] at h; simp at h
  · rw [hfind] at h
    simp only [Option.map_some'] at h
    have hpred0 := List.find?_some hfind
    have hpred : p.1 = name := by simpa using hpred0
    have hmem : p ∈ names.filterMap (projFn cat) :=
      List.mem_reverse.mp (List.mem_of_find?_eq_some hfind)
    obtain ⟨a, ha, hproj⟩ := List.mem_filterMap.mp hmem
    unfold projFn at hproj
    cases hn : normPair a with
    | none => rw [hn] at hproj; simp at hproj
    | some q =>
      obtain ⟨c, n⟩ := q
      rw [hn] at hproj
      by_cases hcc : c = cat
      · simp only [hcc, if_pos] at hproj
        obtain ⟨hp1, hp2⟩ : n = p.1 ∧ a = p.2 := by
          cases hproj; exact ⟨rfl, rfl⟩
        have hfn : p.2 = fn := Option.some.inj h
        refine ⟨?_, ?_⟩
        · rw [← hfn, ← hp2]; exact ha
        · rw [← hfn, ← hp2, hn, hcc, hp1, hpred]
      · simp [hcc] at hproj

/-- Every known section name whose normalisation matches the lookup pair is
found by the built index. -/
theorem isSome_lookup2_buildCats (names : List String) (cat name fn : String)
    (hmem : fn ∈ names) (hnorm : normPair fn = some (cat, name)) :
    (lookup2 (buildCats names) cat name).isSome := by
  rw [lookup2_buildCats]
  have hproj : projFn cat fn = some (name, fn) := by
    unfold projFn; rw [hnorm]; simp
  have hrev : (name, fn) ∈ (names.filterMap (projFn cat)).reverse :=
    List.mem_reverse.mpr (List.mem_filterMap.mpr ⟨fn, hmem, hproj⟩)
  have hfind : (((names.filterMap (projFn cat)).reverse.find?
      (fun p => decide (p.1 = name)))).isSome :=
    List.find?_isSome.mpr ⟨(name, fn), hrev, by simp⟩
  rcases Option.isSome_iff_exists.mp hfind with ⟨p, hp⟩
  rw [hp]
  simp

/-! ## Claims -/

/-- C1: the value evaluator is total and follows the three-way rule: a
string accepted by the literal evaluator yields that literal value;
otherwise the case-insensitive keyword match decides false/true; otherwise
the string is returned unchanged.  Totality of the fallback is reflected in
`evaluateVal` returning a plain `PyVal`. -/
theorem claim_C1 (lit : String → Option PyVal) (s : String) :
    (∀ v, lit s = some v → evaluateVal lit s = v) ∧
    (lit s = Option.none →
      ((optionxform s = "no" ∨ optionxform s = "false" ∨ optionxform s = "off") →
        evaluateVal lit s = PyVal.bool false) ∧
      ((optionxform s = "yes" ∨ optionxform s = "true" ∨ optionxform s = "on") →
        evaluateVal lit s = PyVal.bool true) ∧
      (¬(optionxform s = "no" ∨ optionxform s = "false" ∨ optionxform s = "off") →
        ¬(optionxform s = "yes" ∨ optionxform s = "true" ∨ optionxform s = "on") →
        evaluateVal lit s = PyVal.str s)) := by
  constructor
  · intro v hv
    unfold evaluateVal
    rw [hv]
  · intro hnone
    refine ⟨fun hno => ?_, fun hyes => ?_, fun hno hyes => ?_⟩
    · unfold evaluateVal
      rw [hnone]
      simp [hno]
    · have hno : ¬(optionxform s = "no" ∨ optionxform s = "false" ∨ optionxform s = "off") := by
        rcases hyes with h | h | h <;> rw [h] <;> decide
      unfold evaluateVal
      rw [hnone]
      simp [hno, hyes]
    · unfold evaluateVal
      rw [hnone]
      simp [hno, hyes]

/-- Witness for C1 at concrete inputs: a literal, both keyword classes, and
the unchanged fallback. -/
theorem claim_C1_witness :
    evaluateVal litEvalModel "42" = PyVal.int 42 ∧
    evaluateVal litEvalModel "Off" = PyVal.bool false ∧
    evaluateVal litEvalModel "YES" = PyVal.bool true ∧
    evaluateVal litEvalModel "hello" = PyVal.str "hello" :=
  ⟨(claim_C1 litEvalModel "42").1 (PyVal.int 42) rfl,
   ((claim_C1 litEvalModel "Off").2 rfl).1 (by decide),
   ((claim_C1 litEvalModel "YES").2 rfl).2.1 (by decide),
   ((claim_C1 litEvalModel "hello").2 rfl).2.2 (by decide) (by decide)⟩

/-- C8: the category index is built at most once and the build is
idempotent: `_parse_categories` is idempotent, a no-op on an already-built
parser, always leaves the Built state, and `categories()` called twice
returns identical results and leaves the state fixed. -/
theorem claim_C8 (st : CfgState) :
    parseCategories (parseCategories st) = parseCategories st ∧
    (∀ i, st.catIndex = some i → parseCategories st = st) ∧
    (parseCategories st).catIndex = some (idxOf st) ∧
    (categoriesOp (categoriesOp st).2).1 = (categoriesOp st).1 ∧
    (categoriesOp (categoriesOp st).2).2 = (categoriesOp st).2 := by
  obtain ⟨store, ci⟩ := st
  cases ci <;> simp [parseCategories, idxOf, categoriesOp, baseSections]

/-- Witness for C8 on the example parser. -/
theorem claim_C8_witness :
    parseCategories (parseCategories exampleState) = parseCategories exampleState ∧
    (categoriesOp (categoriesOp exampleState).2).1 = (categoriesOp exampleState).1 :=
  ⟨(claim_C8 exampleState).1, (claim_C8 exampleState).2.2.2.1⟩

/-- C5: the category index build indexes exactly the sections whose
normalised (case-folded, trimmed) name contains exactly one colon —
`normPair` returns `some (category, bare name)` precisely for those, with
both parts trimmed.  Everything the index resolves is such a section
(zero- or many-colon sections never appear), every such section is
retrievable, `"results: hello"` resolves under category `"results"` and
bare name `"hello"`, and a two-colon section defeats the whole index. -/
theorem claim_C5 (names : List String) (cat name fn : String) :
    (lookup2 (buildCats names) cat name = some fn →
      fn ∈ names ∧ normPair fn = some (cat, name)) ∧
    (fn ∈ names → normPair fn = some (cat, name) →
      (lookup2 (buildCats names) cat name).isSome) ∧
    (normPair fn = Option.none → lookup2 (buildCats names) cat name ≠ some fn) ∧
    lookup2 (buildCats ["results: hello"]) "results" "hello" = some "results: hello" ∧
    normPair "two: colons: here" = Option.none ∧
    (∀ c n, lookup2 (buildCats ["two: colons: here"]) c n = Option.none) := by
  refine ⟨mem_of_lookup2_buildCats names cat name fn,
    isSome_lookup2_buildCats names cat name fn, ?_, rfl, by decide, ?_⟩
  · intro hnorm h
    have hm := mem_of_lookup2_buildCats names cat name fn h
    rw [hnorm] at hm
    exact Option.noConfusion hm.2
  · intro c n
    cases hl : lookup2 (buildCats ["two: colons: here"]) c n with
    | none => rfl
    | some g =>
      have hm := mem_of_lookup2_buildCats ["two: colons: here"] c n g hl
      have hg : g = "two: colons: here" := by
        have := hm.1
        simpa using this
      rw [hg] at hm
      have : normPair "two: colons: here" = Option.none := by decide
      rw [this] at hm
      exact Option.noConfusion hm.2

/-- Witness for C5 on concrete inputs. -/
theorem claim_C5_witness :
    ("results: hello" ∈ ["results: hello"] ∧
      normPair "results: hello" = some ("results", "hello")) ∧
    (lookup2 (buildCats ["results: hello"]) "results" "hello").isSome :=
  ⟨(claim_C5 ["results: hello"] "results" "hello" "results: hello").1 rfl,
   (claim_C5 ["results: hello"] "results" "hello" "results: hello").2.1
     (by decide) (by decide)⟩

/-- C10: with duplicate normalisations, the built index maps a bare name to
the full name of the *last* section producing it (first match over the
reversed projected stream), while the bare name keeps the ordering position
of its *first* appearance; consequently category-qualified lookups resolve
to the last-appearing section and earlier duplicates are unreachable. -/
theorem claim_C10 (names : List String) (cat name : String) :
    lookup2 (buildCats names) cat name =
      ((names.filterMap (projFn cat)).reverse.find?
        (fun p => p.1 = name)).map Prod.snd ∧
    odKeys (innerOf (buildCats names) cat) =
      firstKeys ((names.filterMap (projFn cat)).map Prod.fst) ∧
    lookup2 (buildCats dupNames) "command" "foo" = some "Command:  foo  " ∧
    odKeys (innerOf (buildCats dupNames) "command") = ["foo", "zar"] ∧
    (∀ c n, lookup2 (buildCats dupNames) c n ≠ some "command: foo") := by
  refine ⟨lookup2_buildCats names cat name, odKeys_innerOf_buildCats names cat,
    rfl, rfl, ?_⟩
  intro c n h
  have hm := mem_of_lookup2_buildCats dupNames c n "command: foo" h
  have hnp : normPair "command: foo" = some ("command", "foo") := by decide
  have h2 := hm.2
  rw [hnp] at h2
  have h3 : ("command", "foo") = (c, n) := Option.some.inj h2
  have hc : c = "command" := (congrArg Prod.fst h3).symm
  have hn : n = "foo" := (congrArg Prod.snd h3).symm
  rw [hc, hn] at h
  have hres : lookup2 (buildCats dupNames) "command" "foo" = some "Command:  foo  " := rfl
  rw [hres] at h
  exact absurd h (by decide)

/-- Witness for C10 on the duplicate example. -/
theorem claim_C10_witness :
    lookup2 (buildCats dupNames) "command" "foo" =
      ((dupNames.filterMap (projFn "command")).reverse.find?
        (fun p => p.1 = "foo")).map Prod.snd ∧
    lookup2 (buildCats dupNames) "command" "foo" ≠ some "command: foo" :=
  ⟨(claim_C10 dupNames "command" "foo").1,
   (claim_C10 dupNames "command" "foo").2.2.2.2 "command" "foo"⟩

/-- C2: the option-absent and default behaviour is as claimed — `get`
returns the supplied default (the sentinel keeping `default=None`, i.e.
`Dflt.given PyVal.none`, distinguishable from `Dflt.empty`; `d` ranges over
all values) on a missing option and signals `NoOptionError` without one,
and returns the supplied default on a failed category/section resolution —
but the claimed `SectionNotFound` on a no-default resolution failure is a
code bug: `raise configparser.NoSectionError` raises the bare exception
class, whose constructor requires the section argument, so an untyped
`TypeError` propagates instead.  The last two conjuncts evaluate the code
at the failing input `get("nosuch", "dir", category="command")`. -/
theorem claim_C2 (lit : String → Option PyVal) (st : CfgState) (sec opt : String)
    (d : PyVal) (ev : Bool) :
    (∀ opts, odLookup st.store sec = some opts →
      odLookup opts (optionxform opt) = Option.none →
      getOp lit st sec opt Option.none ev (Dflt.given d) = .ok d ∧
      getOp lit st sec opt Option.none ev Dflt.empty = .error .noOption) ∧
    (∀ cat, lookup2 (idxOf st) (optionxform cat) (optionxform sec) = Option.none →
      getOp lit st sec opt (some cat) ev (Dflt.given d) = .ok d ∧
      getOp lit st sec opt (some cat) ev Dflt.empty = .error .typeError) ∧
    (∀ cat full opts,
      lookup2 (idxOf st) (optionxform cat) (optionxform sec) = some full →
      odLookup st.store full = some opts →
      odLookup opts (optionxform opt) = Option.none →
      getOp lit st sec opt (some cat) ev (Dflt.given d) = .ok d ∧
      getOp lit st sec opt (some cat) ev Dflt.empty = .error .noOption) ∧
    getOp litEvalModel exampleState "nosuch" "dir" (some "command") false Dflt.empty =
      .error .typeError ∧
    (Except.error PyErr.typeError : Except PyErr PyVal) ≠ .error .noSection := by
  refine ⟨?_, ?_, ?_, rfl, ?_⟩
  · intro opts h1 h2
    constructor <;> simp [getOp, baseGet, h1, h2]
  · intro cat h
    constructor <;> simp [getOp, h]
  · intro cat full opts h1 h2 h3
    constructor <;> simp [getOp, baseGet, h1, h2, h3]
  · intro h
    injection h with h'
    exact PyErr.noConfusion h'

/-- Witness for C2 on the example parser: missing option with and without
category, failed resolution, and `default=None` staying distinguishable. -/
theorem claim_C2_witness :
    getOp litEvalModel exampleState "evalvals" "missing" Option.none true
      (Dflt.given PyVal.none) = .ok PyVal.none ∧
    getOp litEvalModel exampleState "evalvals" "missing" Option.none true
      Dflt.empty = .error .noOption ∧
    getOp litEvalModel exampleState "nosuch" "dir" (some "command") false
      (Dflt.given (PyVal.str "dflt")) = .ok (PyVal.str "dflt") ∧
    getOp litEvalModel exampleState "nosuch" "dir" (some "command") false
      Dflt.empty = .error .typeError ∧
    getOp litEvalModel exampleState "foo" "missing" (some "command") false
      (Dflt.given PyVal.none) = .ok PyVal.none ∧
    getOp litEvalModel exampleState "foo" "missing" (some "command") false
      Dflt.empty = .error .noOption :=
  ⟨((claim_C2 litEvalModel exampleState "evalvals" "missing" PyVal.none true).1
      [("val1", "42")] rfl rfl).1,
   ((claim_C2 litEvalModel exampleState "evalvals" "missing" PyVal.none true).1
      [("val1", "42")] rfl rfl).2,
   ((claim_C2 litEvalModel exampleState "nosuch" "dir" (PyVal.str "dflt") false).2.1
      "command" rfl).1,
   ((claim_C2 litEvalModel exampleState "nosuch" "dir" (PyVal.str "dflt") false).2.1
      "command" rfl).2,
   ((claim_C2 litEvalModel exampleState "foo" "missing" PyVal.none false).2.2.1
      "command" "command: foo" [("dir", "bar")] rfl rfl rfl).1,
   ((claim_C2 litEvalModel exampleState "foo" "missing" PyVal.none false).2.2.1
      "command" "command: foo" [("dir", "bar")] rfl rfl rfl).2⟩

/-- C3 counterexample: `getlist` with a failed category resolution and a
supplied default does not return the default — `getlist` calls `get`
without forwarding `default`, the inner `get` hits its no-default failure
path (`raise configparser.NoSectionError` on the bare class, producing an
untyped `TypeError`), and the `except NoOptionError` handler does not
catch it. -/
theorem counterexample_C3 :
    getlistOp litEvalModel exampleState "nosuch" "dir" (some "command") false
      (Dflt.given (PyVal.str "dflt")) = .error .typeError ∧
    (Except.error PyErr.typeError : Except PyErr PyVal) ≠ .ok (PyVal.str "dflt") :=
  ⟨rfl, fun h => Except.noConfusion h⟩

/-- C3 amended: `getlist` applies `get`'s default rule only for a missing
option (it catches `NoOptionError` and returns the default); when the
category/section resolution fails, the failure propagates even when a
default was supplied — as the untyped `TypeError` coming from the inner
`get`'s bare `raise configparser.NoSectionError` — because `getlist` does
not forward its default to `get` and catches only `NoOptionError`. -/
theorem claim_C3 (lit : String → Option PyVal) (st : CfgState) (sec opt : String)
    (d : PyVal) (ev : Bool) :
    (∀ cat, lookup2 (idxOf st) (optionxform cat) (optionxform sec) = Option.none →
      getlistOp lit st sec opt (some cat) ev (Dflt.given d) = .error .typeError ∧
      getlistOp lit st sec opt (some cat) ev Dflt.empty = .error .typeError) ∧
    (∀ category, getOp lit st sec opt category false Dflt.empty = .error .noOption →
      getlistOp lit st sec opt category ev (Dflt.given d) = .ok d ∧
      getlistOp lit st sec opt category ev Dflt.empty = .error .noOption) := by
  constructor
  · intro cat h
    have hget : getOp lit st sec opt (some cat) false Dflt.empty = .error .typeError := by
      simp [getOp, h]
    constructor <;> simp [getlistOp, hget]
  · intro category h
    constructor <;> simp [getlistOp, h]

/-- Witness for C3 (amended) on the example parser. -/
theorem claim_C3_witness :
    getlistOp litEvalModel exampleState "nosuch" "dir" (some "command") false
      (Dflt.given (PyVal.str "dflt")) = .error .typeError ∧
    getlistOp litEvalModel exampleState "listvals" "missing" Option.none false
      (Dflt.given (PyVal.str "dflt")) = .ok (PyVal.str "dflt") :=
  ⟨((claim_C3 litEvalModel exampleState "nosuch" "dir" (PyVal.str "dflt") false).1
      "command" rfl).1,
   ((claim_C3 litEvalModel exampleState "listvals" "missing" (PyVal.str "dflt") false).2
      Option.none rfl).1⟩

/-- C4 counterexample: the claimed example fails — resolving category
`"Command"` with section `" bar "` raises (`KeyError`) while `"command"`
with `"bar"` succeeds, because lookups case-fold but do not trim the
caller-supplied arguments. -/
theorem counterexample_C4 :
    optionsOp exampleState "bar" (some "command") = .ok ["dir"] ∧
    optionsOp exampleState " bar " (some "Command") = .error .keyError ∧
    optionsOp exampleState " bar " (some "Command") ≠
      optionsOp exampleState "bar" (some "command") := by
  refine ⟨rfl, rfl, ?_⟩
  intro h
  rw [show optionsOp exampleState " bar " (some "Command") = .error .keyError from rfl,
    show optionsOp exampleState "bar" (some "command") = .ok ["dir"] from rfl] at h
  exact Except.noConfusion h

/-- C4 amended: category-aware lookup applies only the case-fold rule
(`optionxform`, no trim) to the caller-supplied arguments, so spellings
differing only in capitalisation resolve identically; surrounding
whitespace in caller arguments changes the result.  Whitespace in the
config-file section names is trimmed on the build side. -/
theorem claim_C4 (lit : String → Option PyVal) (st : CfgState)
    (c1 c2 s1 s2 opt : String) (ev : Bool) (dflt : Dflt)
    (hc : optionxform c1 = optionxform c2) (hs : optionxform s1 = optionxform s2) :
    optionsOp st s1 (some c1) = optionsOp st s2 (some c2) ∧
    hasOptionOp st s1 opt (some c1) = hasOptionOp st s2 opt (some c2) ∧
    itemsOp st s1 (some c1) = itemsOp st s2 (some c2) ∧
    sectionsOp st (some c1) = sectionsOp st (some c2) ∧
    getOp lit st s1 opt (some c1) ev dflt = getOp lit st s2 opt (some c2) ev dflt ∧
    lookup2 (idxOf trimmedBarState) "command" "bar" = some " Command:  bar " := by
  refine ⟨?_, ?_, ?_, ?_, ?_, rfl⟩ <;>
    simp [optionsOp, hasOptionOp, itemsOp, sectionsOp, getOp, hc, hs]

/-- Witness for C4 (amended): capitalisation-only respellings agree. -/
theorem claim_C4_witness :
    optionsOp exampleState "BAR" (some "Command") =
      optionsOp exampleState "bar" (some "command") :=
  (claim_C4 litEvalModel exampleState "Command" "command" "BAR" "bar" "dir" false
    Dflt.empty (by decide) (by decide)).1

/-- C7 counterexample: the index's internal not-found is *not* surfaced as
`SectionNotFound`: `options` and `sections` on a missing category surface
the raw `KeyError`, and `get` without a default surfaces the untyped
`TypeError` from its bare `raise configparser.NoSectionError`. -/
theorem counterexample_C7 :
    optionsOp exampleState "foo" (some "nocat") = .error .keyError ∧
    (Except.error PyErr.keyError : Except PyErr (List String)) ≠
      .error .noSection ∧
    getOp litEvalModel exampleState "foo" "dir" (some "nocat") false Dflt.empty =
      .error .typeError ∧
    (Except.error PyErr.typeError : Except PyErr PyVal) ≠ .error .noSection ∧
    sectionsOp exampleState (some "nocat") = .error .keyError := by
  refine ⟨rfl, ?_, rfl, ?_, rfl⟩
  · intro h
    injection h with h'
    exact PyErr.noConfusion h'
  · intro h
    injection h with h'
    exact PyErr.noConfusion h'

/-- C7 amended: no category-accepting operation surfaces the index's
internal not-found as `SectionNotFound`.  `sections`, `options`,
`has_option`, `items` and `section` propagate the untyped dict `KeyError`
(both for a missing category and for a missing bare section — `section`
testing the *raw* caller section argument); `get` (and `geteval`/`getlist`
through it) returns the supplied default, and with no default raises the
untyped `TypeError` produced by `raise configparser.NoSectionError` on the
bare exception class. -/
theorem claim_C7 (lit : String → Option PyVal) (st : CfgState)
    (sec opt cat : String) (ev : Bool) (d : PyVal) :
    (odLookup (idxOf st) (optionxform cat) = Option.none →
      sectionsOp st (some cat) = .error .keyError ∧
      optionsOp st sec (some cat) = .error .keyError ∧
      hasOptionOp st sec opt (some cat) = .error .keyError ∧
      itemsOp st sec (some cat) = .error .keyError ∧
      sectionResolve st sec cat = .error .keyError ∧
      getOp lit st sec opt (some cat) ev (Dflt.given d) = .ok d ∧
      getOp lit st sec opt (some cat) ev Dflt.empty = .error .typeError) ∧
    (lookup2 (idxOf st) (optionxform cat) (optionxform sec) = Option.none →
      optionsOp st sec (some cat) = .error .keyError ∧
      hasOptionOp st sec opt (some cat) = .error .keyError ∧
      itemsOp st sec (some cat) = .error .keyError ∧
      getOp lit st sec opt (some cat) ev (Dflt.given d) = .ok d ∧
      getOp lit st sec opt (some cat) ev Dflt.empty = .error .typeError) ∧
    (∀ secs, odLookup (idxOf st) (optionxform cat) = some secs →
      odLookup secs sec = Option.none →
      sectionResolve st sec cat = .error .keyError) := by
  refine ⟨?_, ?_, ?_⟩
  · intro h
    have hl : lookup2 (idxOf st) (optionxform cat) (optionxform sec) = Option.none := by
      simp [lookup2, h]
    exact ⟨by simp [sectionsOp, h], by simp [optionsOp, hl], by simp [hasOptionOp, hl],
      by simp [itemsOp, hl], by simp [sectionResolve, h], by simp [getOp, hl],
      by simp [getOp, hl]⟩
  · intro hl
    exact ⟨by simp [optionsOp, hl], by simp [hasOptionOp, hl],
      by simp [itemsOp, hl], by simp [getOp, hl], by simp [getOp, hl]⟩
  · intro secs h1 h2
    simp [sectionResolve, h1, h2]

/-- Witness for C7 (amended) on the example parser: a missing category, a
missing bare section, and `section` missing the raw-cased bare name. -/
theorem claim_C7_witness :
    sectionsOp exampleState (some "nocat") = .error .keyError ∧
    optionsOp exampleState "foo" (some "nocat") = .error .keyError ∧
    getOp litEvalModel exampleState "foo" "dir" (some "nocat") false Dflt.empty =
      .error .typeError ∧
    optionsOp exampleState "nosuch" (some "command") = .error .keyError ∧
    getOp litEvalModel exampleState "nosuch" "dir" (some "command") false Dflt.empty =
      .error .typeError ∧
    sectionResolve exampleState "Bar" "command" = .error .keyError :=
  ⟨((claim_C7 litEvalModel exampleState "foo" "dir" "nocat" false PyVal.none).1 rfl).1,
   ((claim_C7 litEvalModel exampleState "foo" "dir" "nocat" false PyVal.none).1 rfl).2.1,
   ((claim_C7 litEvalModel exampleState "foo" "dir" "nocat" false
      PyVal.none).1 rfl).2.2.2.2.2.2,
   ((claim_C7 litEvalModel exampleState "nosuch" "dir" "command" false
      PyVal.none).2.1 rfl).1,
   ((claim_C7 litEvalModel exampleState "nosuch" "dir" "command" false
      PyVal.none).2.1 rfl).2.2.2.2,
   (claim_C7 litEvalModel exampleState "Bar" "dir" "command" false PyVal.none).2.2
     [("foo", "command: foo"), ("bar", " Command:    bar "), ("baz", "CoMmaNd:baz")]
     rfl rfl⟩

/-- C9 (implicit): `has_section` with a category never raises — it returns
`false` when the category is absent and when the bare section is absent —
and it tests the *raw* caller section argument against the index, so a
spelling differing only in case (`"Bar"` for bare name `"bar"`) makes
`has_section` return `false` while `options`/`items`/`get` on the same
arguments succeed. -/
theorem claim_C9 (st : CfgState) (sec cat : String) :
    (odLookup (idxOf st) (optionxform cat) = Option.none →
      hasSectionOp st sec (some cat) = false) ∧
    (∀ secs, odLookup (idxOf st) (optionxform cat) = some secs →
      odLookup secs sec = Option.none → hasSectionOp st sec (some cat) = false) ∧
    hasSectionOp exampleState "Bar" (some "command") = false ∧
    optionsOp exampleState "Bar" (some "command") = .ok ["dir"] ∧
    itemsOp exampleState "Bar" (some "command") = .ok [("dir", "baz")] ∧
    getOp litEvalModel exampleState "Bar" "dir" (some "command") false Dflt.empty =
      .ok (PyVal.str "baz") := by
  refine ⟨?_, ?_, rfl, rfl, rfl, rfl⟩
  · intro h
    simp [hasSectionOp, h]
  · intro secs h1 h2
    simp [hasSectionOp, h1, h2]

/-- Witness for C9 on the example parser. -/
theorem claim_C9_witness :
    hasSectionOp exampleState "nosec" (some "nocat") = false ∧
    hasSectionOp exampleState "Bar" (some "command") = false :=
  ⟨(claim_C9 exampleState "nosec" "nocat").1 rfl,
   (claim_C9 exampleState "Bar" "command").2.2.1⟩

/-- C6: list splitting cuts at every single comma or newline (segments are
delimiter-free; a delimiter splits exactly once; a delimiter-free string is
one segment), trims each segment, discards segments that are empty after
trimming, behaves as the spec's three examples, and with `evaluate` true
pipes each surviving segment through the value evaluator. -/
theorem claim_C6 :
    (∀ (l : List Char), ∀ seg ∈ splitDelims l, ∀ c ∈ seg, ¬(c = ',' ∨ c = '\n')) ∧
    (∀ (l : List Char), (∀ c ∈ l, isDelim c = false) → splitDelims l = [l]) ∧
    (∀ (a b : List Char) (c : Char), isDelim c = true →
      (∀ x ∈ a, isDelim x = false) → splitDelims (a ++ c :: b) = a :: splitDelims b) ∧
    (∀ (val : String), ∀ s ∈ splitList val, s ≠ "") ∧
    splitList "a,b\nc" = ["a", "b", "c"] ∧
    splitList "" = [] ∧
    splitList " , , " = [] ∧
    (∀ lit st sec opt category val,
      getOp lit st sec opt category false Dflt.empty = .ok (PyVal.str val) →
      getlistOp lit st sec opt category false Dflt.empty =
        .ok (PyVal.list ((splitList val).map PyVal.str)) ∧
      getlistOp lit st sec opt category true Dflt.empty =
        .ok (PyVal.list ((splitList val).map (evaluateVal lit)))) := by
  refine ⟨?_, splitDelims_of_no_delim, splitDelims_append, ?_, rfl, rfl, rfl, ?_⟩
  · intro l seg hseg c hc
    have hd := not_delim_of_mem_splitDelims l seg hseg c hc
    simp [isDelim] at hd
    intro hor
    rcases hor with h | h
    · exact hd.1 h
    · exact hd.2 h
  · intro val s hs
    have := (List.mem_filter.mp hs).2
    simpa using this
  · intro lit st sec opt category val h
    constructor <;> simp [getlistOp, h]

/-- Witness for C6 at concrete inputs: single-segment case, one cut, and an
end-to-end `getlist` on the example parser. -/
theorem claim_C6_witness :
    splitDelims ['a', 'b'] = [['a', 'b']] ∧
    splitDelims (['a'] ++ ',' :: ['b']) = ['a'] :: splitDelims ['b'] ∧
    getlistOp litEvalModel exampleState "listvals" "val2" Option.none false Dflt.empty =
      .ok (PyVal.list ((splitList "hello, there, comma, list").map PyVal.str)) :=
  ⟨claim_C6.2.1 ['a', 'b'] (by decide),
   claim_C6.2.2.1 ['a'] ['b'] ',' (by decide) (by decide),
   (claim_C6.2.2.2.2.2.2.2 litEvalModel exampleState "listvals" "val2" Option.none
     "hello, there, comma, list" rfl).1⟩

end Cfg

